import Mathlib

/-!
Verification development for the teleforward repository.

Shallow embedding of the core modules:
* `src/core/discord_dispatcher.py` — `_MediaRef`, `DiscordJob`, `DiscordSendDispatcher`
* `src/core/discord_sender.py` — `DiscordWebhookSender` (URL validation, payload
  construction, backoff formula)
* `src/core/transformer.py` — `TransformRule`, `TransformResult`, `MessageTransformer`

Python machine-level details are modelled as follows: Python `float` values in the
backoff computation are modelled as rationals (the claim under study is about the
algebraic shape of the formula, not rounding); Python's cooperative single-threaded
asyncio scheduling together with the explicit locks in the source means every
`release()` of a media reference executes its decrement-and-test atomically, so a
set of concurrent releases is modelled as a sequence of atomic `release` steps;
the regular-expression engine is embedded concretely for the concrete patterns the
source uses (URL / mention / telegram-link stripping, whitespace collapsing,
case-insensitive literal search) and abstractly (an oracle argument) for
user-supplied regex rule patterns.
-/

namespace Teleforward

/-! ## `_MediaRef` (src/core/discord_dispatcher.py, lines 15-29)

`release` runs `self.remaining -= 1` and the zero test under `self.lock`; the
`unlink` happens after the lock is dropped, performed only by the caller that saw
`remaining <= 0`.  `deleteCount` counts `Path(...).unlink` invocations. -/

structure MediaRef where
  path : String
  remaining : Int
  deleteCount : Nat
  deriving DecidableEq, Repr

/-- Model of `_MediaRef.release`: decrement under the mutex; if the new value is
still positive return, otherwise unlink the file. -/
def release (s : MediaRef) : MediaRef :=
  let r := s.remaining - 1
  if r > 0 then { s with remaining := r }
  else { s with remaining := r, deleteCount := s.deleteCount + 1 }

/-- Model of `DiscordSendDispatcher.make_media_ref` (no unlink performed yet). -/
def make_media_ref (path : String) (fanout : Int) : MediaRef :=
  { path := path, remaining := fanout, deleteCount := 0 }

/-- `k` sequential `release()` calls (the mutex serialises concurrent calls). -/
def releaseN (k : Nat) (s : MediaRef) : MediaRef :=
  release^[k] s

/-! ## `DiscordMessage` and payload construction (src/core/discord_sender.py) -/

structure DiscordMessage where
  content : String
  username : Option String := none
  avatar_url : Option String := none
  file_path : Option String := none
  file_name : Option String := none
  embeds : Option (List (List (String × String))) := none
  allowed_mentions : Option (List (String × String)) := none
  deriving DecidableEq, Repr

/-- Python string slicing `s[:n]` (by code points). -/
def pySlice (s : String) (n : Nat) : String :=
  ⟨s.data.take n⟩

/-- Python truthiness of an `Optional[str]` field: `None` and `""` are falsy. -/
def truthyStr (o : Option String) : Option String :=
  match o with
  | none => none
  | some s => if s = "" then none else some s

/-- JSON payload assembled by `DiscordWebhookSender._send_text`
(src/core/discord_sender.py, lines 105-119): the `content` key always holds
`message.content[:2000]`; the optional keys are present only when truthy. -/
structure TextPayload where
  content : String
  username : Option String
  avatar_url : Option String
  embeds : Option (List (List (String × String)))
  allowed_mentions : Option (List (String × String))
  deriving DecidableEq, Repr

def send_text_payload (m : DiscordMessage) : TextPayload :=
  { content := pySlice m.content 2000
    username := truthyStr m.username
    avatar_url := truthyStr m.avatar_url
    embeds := m.embeds
    allowed_mentions := m.allowed_mentions }

/-- The `content` entry of the `payload_json` assembled by
`DiscordWebhookSender._send_with_file` (lines 121-139): present only when
`message.content` is truthy, and then truncated to 2000 code points. -/
def send_with_file_content (m : DiscordMessage) : Option String :=
  if m.content = "" then none else some (pySlice m.content 2000)

/-! ## Backoff (src/core/discord_sender.py, lines 177-179)

`_backoff_seconds` computes `min(self.max_backoff_seconds, (2**attempt) * 0.5)
+ random.random() * 0.25`.  Floats are modelled as rationals; `random.random()`
returns a value in `[0, 1)`, passed here as the parameter `r`. -/

def backoffBase (max_backoff_seconds : ℚ) (attempt : ℕ) : ℚ :=
  min max_backoff_seconds ((2 : ℚ) ^ attempt * (1 / 2))

def backoff_seconds (max_backoff_seconds : ℚ) (attempt : ℕ) (r : ℚ) : ℚ :=
  backoffBase max_backoff_seconds attempt + r * (1 / 4)

/-! ## `DiscordJob` and `DiscordSendDispatcher` (src/core/discord_dispatcher.py)

The dispatcher's mutable state relevant to `enqueue`/`close` is the map of
per-webhook queues (`self._queues`), the set of spawned worker tasks
(`self._tasks`, modelled by the list of webhook URLs a worker exists for) and the
`self._closed` flag.  Queues are modelled unbounded FIFO lists (the source bound
only makes `put` suspend, it never drops or reorders). -/

structure DiscordJob where
  webhook_url : String
  webhook_name : String
  route_mapping_id : Option Int := none
  destination_type : String := "webhook"
  destination_name : Option String := none
  channel_id : Int := 0
  message_id : Int := 0
  timestamp : Int := 0
  original_text : Option String := none
  transformed_text : Option String := none
  has_media : Bool := false
  discord_message : DiscordMessage
  media_ref : Option MediaRef := none
  deriving DecidableEq, Repr

structure DispatcherState where
  queues : List (String × List DiscordJob)
  tasks : List String
  closed : Bool
  deriving DecidableEq, Repr

/-- Lookup in the `self._queues` dict (association list keyed by webhook URL;
dict keys are unique, which the list operations below preserve). -/
def lookupQ (l : List (String × List DiscordJob)) (k : String) :
    Option (List DiscordJob) :=
  (l.find? (fun p => p.1 = k)).map (fun p => p.2)

/-- Replace the value bound to key `k`. -/
def updateQ (l : List (String × List DiscordJob)) (k : String)
    (v : List DiscordJob) : List (String × List DiscordJob) :=
  l.map (fun p => if p.1 = k then (k, v) else p)

/-- Model of `DiscordSendDispatcher.enqueue` (lines 72-85): no-op when closed;
otherwise create the destination's queue and worker task on first use, then push
the job at the tail of exactly that destination's queue. -/
def enqueue (s : DispatcherState) (job : DiscordJob) : DispatcherState :=
  if s.closed then s
  else
    match lookupQ s.queues job.webhook_url with
    | some q =>
        { s with queues := updateQ s.queues job.webhook_url (q ++ [job]) }
    | none =>
        { s with
          queues := s.queues ++ [(job.webhook_url, [job])]
          tasks := s.tasks ++ [job.webhook_url] }

/-- Model of `DiscordSendDispatcher.close` (lines 87-93): set the closed flag,
cancel every worker, clear tasks and queues. -/
def closeDispatcher (_ : DispatcherState) : DispatcherState :=
  { queues := [], tasks := [], closed := true }

/-! ## Theorems for claims C1, C7, C8, C9 -/

/-- Trajectory of `k ≤ N` serialized releases of a fresh `_MediaRef` with
refcount `N`. -/
theorem releaseN_traj (p : String) (N k : ℕ) (hk : k ≤ N) (hN : 1 ≤ N) :
    releaseN k (make_media_ref p N) =
      { path := p, remaining := (N : ℤ) - k,
        deleteCount := if k < N then 0 else 1 } := by
  induction k with
  | zero =>
      have h0 : 0 < N := hN
      simp [releaseN, make_media_ref, h0]
  | succ k ih =>
      have hk' : k ≤ N := Nat.le_of_succ_le hk
      have hkN : k < N := Nat.lt_of_succ_le hk
      rw [releaseN, Function.iterate_succ_apply', ← releaseN, ih hk']
      simp only [release, hkN, if_true]
      by_cases h : k + 1 < N
      · have hpos : (0 : ℤ) < (N : ℤ) - k - 1 := by omega
        simp [hpos, h]
        ring
      · have hpos : ¬ (0 : ℤ) < (N : ℤ) - k - 1 := by omega
        simp [hpos, h]
        ring

/-- C1: for a SharedAttachment created with refcount `N ≥ 1`, performing exactly
`N` `release()` calls deletes the underlying file exactly once, the deletion
happening on the call that brings the remaining count to zero; every earlier
release leaves the file in place.  The mutex in the source serialises the
decrement-and-test, so every interleaving of the `N` calls is the sequential
composition modelled by `releaseN`. -/
theorem shared_attachment_release_deletes_once (p : String) (N : ℕ) (hN : 1 ≤ N) :
    (∀ k : ℕ, k < N → (releaseN k (make_media_ref p N)).deleteCount = 0) ∧
    (releaseN N (make_media_ref p N)).deleteCount = 1 ∧
    (releaseN N (make_media_ref p N)).remaining = 0 := by
  refine ⟨fun k hk => ?_, ?_, ?_⟩
  · rw [releaseN_traj p N k (Nat.le_of_lt hk) hN]
    simp [hk]
  · rw [releaseN_traj p N N le_rfl hN]
    simp
  · rw [releaseN_traj p N N le_rfl hN]
    simp

/-- Witness for C1: refcount 3, deletion exactly on the third call. -/
theorem shared_attachment_release_deletes_once_witness :
    (releaseN 2 (make_media_ref "f.bin" 3)).deleteCount = 0 ∧
    (releaseN 3 (make_media_ref "f.bin" 3)).deleteCount = 1 := by
  exact ⟨(shared_attachment_release_deletes_once "f.bin" 3 (by decide)).1 2
      (by decide),
    (shared_attachment_release_deletes_once "f.bin" 3 (by decide)).2.1⟩

/-- C7: the backoff delay is `min(max_backoff_seconds, 2^attempt * 0.5)` plus a
jitter of `r * 0.25` with `r ∈ [0,1)` (so the jitter lies in `[0, 0.25)`); the
deterministic base part is monotonically non-decreasing in the attempt number and
never exceeds the configured cap. -/
theorem backoff_formula_monotone_capped (cap : ℚ) (n m : ℕ) (r : ℚ)
    (h0 : 0 ≤ r) (h1 : r < 1) :
    backoff_seconds cap n r = min cap ((2 : ℚ) ^ n * (1 / 2)) + r * (1 / 4) ∧
    0 ≤ r * (1 / 4) ∧ r * (1 / 4) < 1 / 4 ∧
    (n ≤ m → backoffBase cap n ≤ backoffBase cap m) ∧
    backoffBase cap n ≤ cap := by
  refine ⟨rfl, by positivity, by linarith, fun hnm => ?_, min_le_left _ _⟩
  refine min_le_min le_rfl ?_
  have hpow : (2 : ℚ) ^ n ≤ (2 : ℚ) ^ m :=
    pow_le_pow_right₀ (by norm_num) hnm
  linarith

/-- Witness for C7 at cap 30, attempts 1 ≤ 3, jitter seed 1/2. -/
theorem backoff_formula_monotone_capped_witness :
    backoff_seconds 30 1 (1 / 2) = min 30 ((2 : ℚ) ^ 1 * (1 / 2)) + (1 / 2) * (1 / 4) ∧
    backoffBase 30 1 ≤ backoffBase 30 3 ∧
    backoffBase (30 : ℚ) 1 ≤ 30 := by
  have h := backoff_formula_monotone_capped 30 1 3 (1 / 2) (by norm_num) (by norm_num)
  exact ⟨h.1, h.2.2.2.1 (by norm_num), h.2.2.2.2⟩

/-- Counterexample for C8: a 2001-character text is sent as its first 2000
characters, and the payload does NOT end with the ellipsis marker `"..."`
("ends with" formalised as list suffix on the character data). -/
theorem webhook_truncation_no_ellipsis_counterexample :
    (send_text_payload { content := ⟨List.replicate 2001 'a'⟩ }).content =
      (⟨List.replicate 2000 'a'⟩ : String) ∧
    ¬ ("...".data <:+
        (send_text_payload { content := ⟨List.replicate 2001 'a'⟩ }).content.data) := by
  have h2 : (send_text_payload { content := ⟨List.replicate 2001 'a'⟩ }).content =
      (⟨List.replicate 2000 'a'⟩ : String) := by
    show pySlice ⟨List.replicate 2001 'a'⟩ 2000 = _
    unfold pySlice
    rw [show ((⟨List.replicate 2001 'a'⟩ : String).data) = List.replicate 2001 'a'
      from rfl]
    rw [List.take_replicate, Nat.min_eq_left (by norm_num)]
  refine ⟨h2, fun h => ?_⟩
  rw [h2] at h
  have hmem : '.' ∈ List.replicate 2000 'a' := by
    exact h.subset (by decide)
  have := List.eq_of_mem_replicate hmem
  cases this

/-- C8 (amended): the webhook text payload carries `content` truncated to the
2000-character Discord limit — text at or under the limit is sent unchanged,
longer text is cut to exactly its first 2000 characters — and no ellipsis
marker is appended (the payload is always a prefix of the original text). -/
theorem webhook_text_truncated_to_2000 (m : DiscordMessage) :
    ((m.content.data.length ≤ 2000 → (send_text_payload m).content = m.content) ∧
     (send_text_payload m).content.data = m.content.data.take 2000 ∧
     (send_text_payload m).content.data.length = min m.content.data.length 2000) := by
  refine ⟨fun hle => ?_, rfl, ?_⟩
  · show pySlice m.content 2000 = m.content
    unfold pySlice
    rw [List.take_of_length_le hle]
  · show (pySlice m.content 2000).data.length = _
    simp [pySlice, Nat.min_comm]

/-- Witness for C8 (amended): a short text is sent unchanged. -/
theorem webhook_text_truncated_to_2000_witness :
    (send_text_payload { content := "hello" }).content = "hello" := by
  exact (webhook_text_truncated_to_2000 { content := "hello" }).1 (by decide)

theorem lookupQ_nil (k : String) : lookupQ [] k = none := rfl

theorem lookupQ_cons (a : String) (v : List DiscordJob)
    (l : List (String × List DiscordJob)) (k : String) :
    lookupQ ((a, v) :: l) k = if a = k then some v else lookupQ l k := by
  by_cases h : a = k
  · simp [lookupQ, List.find?_cons_of_pos, h]
  · rw [if_neg h]
    unfold lookupQ
    rw [List.find?_cons_of_neg]
    simp [h]

theorem updateQ_cons (a : String) (v : List DiscordJob)
    (l : List (String × List DiscordJob)) (k : String) (w : List DiscordJob) :
    updateQ ((a, v) :: l) k w =
      (if a = k then (k, w) else (a, v)) :: updateQ l k w := by
  simp [updateQ]

theorem lookupQ_update_self (l : List (String × List DiscordJob)) (k : String)
    (w : List DiscordJob) :
    lookupQ (updateQ l k w) k = (lookupQ l k).map (fun _ => w) := by
  induction l with
  | nil => rfl
  | cons hd tl ih =>
      obtain ⟨a, v⟩ := hd
      by_cases h : a = k
      · subst h
        simp [updateQ_cons, lookupQ_cons]
      · simp [updateQ_cons, lookupQ_cons, h, ih]

theorem lookupQ_update_other (l : List (String × List DiscordJob)) (k u : String)
    (w : List DiscordJob) (h : u ≠ k) :
    lookupQ (updateQ l k w) u = lookupQ l u := by
  induction l with
  | nil => rfl
  | cons hd tl ih =>
      obtain ⟨a, v⟩ := hd
      by_cases ha : a = k
      · subst ha
        have hau : ¬ a = u := fun hh => h hh.symm
        simp [updateQ_cons, lookupQ_cons, hau, ih]
      · simp [updateQ_cons, lookupQ_cons, ha, ih]

theorem lookupQ_append_one (l : List (String × List DiscordJob)) (k u : String)
    (w : List DiscordJob) :
    lookupQ (l ++ [(k, w)]) u =
      ((lookupQ l u).or (if k = u then some w else none)) := by
  induction l with
  | nil =>
      rw [List.nil_append, lookupQ_cons, lookupQ_nil]
      cases h : (if k = u then (some w : Option (List DiscordJob)) else none) <;>
        simp
  | cons hd tl ih =>
      obtain ⟨a, v⟩ := hd
      rw [List.cons_append, lookupQ_cons, lookupQ_cons]
      by_cases h : a = u
      · rw [if_pos h, if_pos h]
        rfl
      · rw [if_neg h, if_neg h, ih]

/-- C9: `enqueue` after `close` is a no-op (state unchanged, nothing pushed);
otherwise `enqueue` pushes the job at the tail of exactly its destination's
queue, leaves every other destination's queue unchanged, and creates the
destination's queue and worker exactly when the destination is seen for the
first time. -/
theorem enqueue_closed_noop_else_pushes (s : DispatcherState) (job : DiscordJob) :
    (s.closed = true → enqueue s job = s) ∧
    (s.closed = false →
      lookupQ (enqueue s job).queues job.webhook_url =
        some ((lookupQ s.queues job.webhook_url).getD [] ++ [job]) ∧
      (∀ u : String, u ≠ job.webhook_url →
        lookupQ (enqueue s job).queues u = lookupQ s.queues u) ∧
      (lookupQ s.queues job.webhook_url = none →
        (enqueue s job).tasks = s.tasks ++ [job.webhook_url]) ∧
      (∀ q, lookupQ s.queues job.webhook_url = some q →
        (enqueue s job).tasks = s.tasks) ∧
      (enqueue s job).closed = false) := by
  constructor
  · intro hc
    simp [enqueue, hc]
  · intro hc
    rcases Option.eq_none_or_eq_some (lookupQ s.queues job.webhook_url) with
      hq | ⟨q0, hq⟩
    · have he : enqueue s job =
          { s with queues := s.queues ++ [(job.webhook_url, [job])],
                   tasks := s.tasks ++ [job.webhook_url] } := by
        simp [enqueue, hc, hq]
      refine ⟨?_, fun u hu => ?_, fun _ => ?_, fun q hq' => ?_, ?_⟩
      · rw [he]
        dsimp only
        rw [hq, Option.getD_none, List.nil_append, lookupQ_append_one, hq,
          if_pos rfl]
        rfl
      · rw [he]
        dsimp only
        rw [lookupQ_append_one, if_neg (fun h => hu h.symm)]
        cases lookupQ s.queues u <;> rfl
      · rw [he]
      · rw [hq] at hq'
        exact Option.noConfusion hq'
      · rw [he]
        exact hc
    · have he : enqueue s job =
          { s with queues := updateQ s.queues job.webhook_url (q0 ++ [job]) } := by
        simp [enqueue, hc, hq]
      refine ⟨?_, fun u hu => ?_, fun h' => ?_, fun q hq' => ?_, ?_⟩
      · rw [he]
        dsimp only
        rw [hq, Option.getD_some, lookupQ_update_self, hq]
        rfl
      · rw [he]
        dsimp only
        exact lookupQ_update_other _ _ _ _ hu
      · rw [hq] at h'
        exact Option.noConfusion h'
      · rw [he]
      · rw [he]
        exact hc

/-- Witness for C9: a closed dispatcher ignores the job; an open empty dispatcher
creates the queue and worker and pushes the job. -/
theorem enqueue_closed_noop_else_pushes_witness :
    enqueue { queues := [], tasks := [], closed := true }
        { webhook_url := "u", webhook_name := "n",
          discord_message := { content := "c" } } =
      { queues := [], tasks := [], closed := true } ∧
    lookupQ (enqueue { queues := [], tasks := [], closed := false }
        { webhook_url := "u", webhook_name := "n",
          discord_message := { content := "c" } }).queues "u" =
      some [{ webhook_url := "u", webhook_name := "n",
              discord_message := { content := "c" } }] := by
  constructor
  · exact (enqueue_closed_noop_else_pushes _ _).1 rfl
  · have h := ((enqueue_closed_noop_else_pushes
      { queues := [], tasks := [], closed := false }
      { webhook_url := "u", webhook_name := "n",
        discord_message := { content := "c" } }).2 rfl).1
    simpa [lookupQ] using h

/-! ## Transformer (src/core/transformer.py)

Embedding notes.  The character class `\s` of Python `str` patterns and the
default `str.strip()` both recognise the Unicode white-space characters; the
predicate `isPySpace` lists that set.  `str.lower()` is modelled by the ASCII
`Char.toLower` (the rule texts the claims quantify over are arbitrary, and no
claim depends on non-ASCII case folding).  The regex engine applied to
user-supplied regex rule patterns is kept abstract as a `RegexOracle`
(`search` models `bool(re.search(pattern, text, re.IGNORECASE))` with
`re.error` already mapped to `False`, `sub` models
`re.sub(pattern, repl, text, flags=re.IGNORECASE)` with `re.error` mapped to
the identity); the concrete patterns hard-coded in the source (URL, mention,
telegram-link stripping, whitespace collapsing) are embedded concretely. -/

/-- Unicode white-space characters: the set matched by `\s` in Python `str`
regexes and stripped by `str.strip()`. -/
def isPySpace (c : Char) : Bool :=
  [9, 10, 11, 12, 13, 28, 29, 30, 31, 32, 133, 160, 5760,
   8192, 8193, 8194, 8195, 8196, 8197, 8198, 8199, 8200, 8201, 8202,
   8232, 8233, 8239, 8287, 12288].contains c.toNat

/-- Characters excluded from a URL match by the character class
`[^\s<>"\x7b\x7d|\\^`\[\]]` in `_strip_links` / `_strip_telegram_links`
(white space and the eleven listed punctuation characters). -/
def isExcludedUrlChar (c : Char) : Bool :=
  isPySpace c || [34, 60, 62, 91, 92, 93, 94, 96, 123, 124, 125].contains c.toNat

def isUrlChar (c : Char) : Bool := ! isExcludedUrlChar c

/-- Length of the literal `https?://` alternative matched at the head of `l`
(8 for `https://`, 7 for `http://`, 0 when neither is a prefix; at most one of
the two literals can be a prefix since they differ at index 4). -/
def httpLitLen (l : List Char) : Nat :=
  if "https://".data.isPrefixOf l then 8
  else if "http://".data.isPrefixOf l then 7
  else 0

/-- Length of the regex match of `https?://[^\s<>"\x7b\x7d|\\^`\[\]]+` starting
at the head of `l` (0 when there is no match there).  The `+` is greedy and
nothing follows it in the pattern, so the match is the literal prefix plus the
maximal non-empty run of URL characters. -/
def urlMatchLen (l : List Char) : Nat :=
  let p := httpLitLen l
  if p = 0 then 0
  else
    let run := ((l.drop p).takeWhile isUrlChar).length
    if run = 0 then 0 else p + run

/-- Length of the literal `https?://(?:t\.me|telegram\.me)/` part matched at
the head of `l` (the four expansions are mutually exclusive prefixes). -/
def tgLitLen (l : List Char) : Nat :=
  if "https://t.me/".data.isPrefixOf l then 13
  else if "https://telegram.me/".data.isPrefixOf l then 20
  else if "http://t.me/".data.isPrefixOf l then 12
  else if "http://telegram.me/".data.isPrefixOf l then 19
  else 0

/-- Match length of `https?://(?:t\.me|telegram\.me)/[^\s<>"\x7b\x7d|\\^`\[\]]+`
at the head of `l`. -/
def tgMatchLen (l : List Char) : Nat :=
  let p := tgLitLen l
  if p = 0 then 0
  else
    let run := ((l.drop p).takeWhile isUrlChar).length
    if run = 0 then 0 else p + run

/-- ASCII approximation of the regex word character `\w`. -/
def isWordChar (c : Char) : Bool := c.isAlphanum || c = '_'

/-- Match length of `@\w+` at the head of `l`. -/
def mentionMatchLen (l : List Char) : Nat :=
  match l with
  | [] => 0
  | c :: cs =>
      if c = '@' then
        let run := (cs.takeWhile isWordChar).length
        if run = 0 then 0 else 1 + run
      else 0

/-- `re.sub(pat, "", text)` for a pattern whose matches are described by the
match-length function `m`: scan left to right, delete each leftmost match,
resume after it (regex matches are non-overlapping). -/
def scanSub (m : List Char → Nat) : List Char → List Char
  | [] => []
  | c :: cs =>
      if m (c :: cs) = 0 then c :: scanSub m cs
      else scanSub m (List.drop (max (m (c :: cs)) 1) (c :: cs))
termination_by l => l.length
decreasing_by
  · simp [List.length_cons] <;> omega
  · have h1 : 1 ≤ max (m (c :: cs)) 1 := le_max_right _ _
    simp [List.length_drop] <;> omega

/-- Leading white space removal of `str.strip()`. -/
def dropStartWs (l : List Char) : List Char := l.dropWhile isPySpace

/-- Trailing white space removal of `str.strip()`
(`List.rdropWhile p l` is definitionally `(l.reverse.dropWhile p).reverse`). -/
def dropEndWs (l : List Char) : List Char :=
  List.rdropWhile isPySpace l

/-- Python `str.strip()` with no arguments. -/
def pyStrip (l : List Char) : List Char := dropEndWs (dropStartWs l)

/-- Model of `MessageTransformer._strip_links` (lines 69-72):
`re.sub(r'https?://[^\s<>"\x7b\x7d|\\^`\[\]]+', "", text).strip()`. -/
def strip_links (s : String) : String :=
  ⟨pyStrip (scanSub urlMatchLen s.data)⟩

/-- Model of `MessageTransformer._strip_mentions` (lines 74-77):
`re.sub(r"@\w+", "", text).strip()`. -/
def strip_mentions (s : String) : String :=
  ⟨pyStrip (scanSub mentionMatchLen s.data)⟩

/-- Model of `MessageTransformer._strip_telegram_links` (lines 79-82). -/
def strip_telegram_links (s : String) : String :=
  ⟨pyStrip (scanSub tgMatchLen s.data)⟩

/-- Each maximal run of white space becomes a single `' '` —
`re.sub(r"\s+", " ", text)`. -/
def collapseRuns : List Char → List Char
  | [] => []
  | c :: cs =>
      if isPySpace c then ' ' :: collapseRuns (cs.dropWhile isPySpace)
      else c :: collapseRuns cs
termination_by l => l.length
decreasing_by
  · have h1 := (List.dropWhile_suffix (l := cs) isPySpace).length_le
    simp [List.length_cons] <;> omega
  · simp [List.length_cons] <;> omega

/-- The final cleanup of `transform` (lines 169-170):
`re.sub(r"\s+", " ", current_text).strip()`. -/
def cleanWs (s : String) : String :=
  ⟨pyStrip (collapseRuns s.data)⟩

/-- `str.lower()` (ASCII case folding). -/
def pyLower (s : String) : String := ⟨s.data.map Char.toLower⟩

structure TransformRule where
  rule_type : String
  pattern : String := ""
  replacement : String := ""
  is_regex : Bool := false
  enabled : Bool := true
  deriving DecidableEq, Repr

structure TransformResult where
  should_forward : Bool := true
  original_text : String := ""
  transformed_text : String := ""
  matched_rules : List String := []
  blocked_by : Option String := none
  deriving DecidableEq, Repr

/-- Abstract regex engine for user-supplied regex rule patterns. -/
structure RegexOracle where
  search : String → String → Bool
  sub : String → String → String → String

/-- Oracle used by concrete witnesses (rejects every regex pattern, as the
engine does for a malformed pattern). -/
def noRegex : RegexOracle := { search := fun _ _ => false, sub := fun _ _ t => t }

/-- Model of `MessageTransformer._match_pattern` (lines 43-53): the empty
pattern never matches; a regex pattern is delegated to the engine
(case-insensitive search, `re.error` giving `False`); a plain pattern matches
as a case-insensitive substring. -/
def match_pattern (O : RegexOracle) (text pattern : String) (is_regex : Bool) :
    Bool :=
  if pattern = "" then false
  else if is_regex then O.search pattern text
  else decide ((pyLower pattern).data <:+: (pyLower text).data)

/-- Case-insensitive literal replacement
`re.compile(re.escape(pattern), re.IGNORECASE).sub(replacement, text)`: replace
the leftmost non-overlapping case-insensitive occurrences.  (An empty pattern
matches at every position, inserting the replacement around every character;
Python additionally processes backslash escapes inside `replacement`, which no
rule the claims quantify over exercises.) -/
def subLitCI (pat rep : List Char) : List Char → List Char
  | [] => if pat = [] then rep else []
  | c :: cs =>
      if pat = [] then rep ++ c :: subLitCI pat rep cs
      else if (pat.map Char.toLower).isPrefixOf ((c :: cs).map Char.toLower) then
        rep ++ subLitCI pat rep (List.drop (max pat.length 1) (c :: cs))
      else c :: subLitCI pat rep cs
termination_by l => l.length
decreasing_by
  all_goals simp [List.length_drop, List.length_cons] <;> omega

/-- Model of `MessageTransformer._apply_replacement` (lines 55-67). -/
def apply_replacement (O : RegexOracle) (text pattern replacement : String)
    (is_regex : Bool) : String :=
  if is_regex then O.sub pattern replacement text
  else ⟨subLitCI pattern.data replacement.data text.data⟩

/-- One step of the strip-rule loop (transform step 3, lines 134-145). -/
def stripStep (acc : String × List String) (r : TransformRule) :
    String × List String :=
  if r.rule_type = "strip_links" then
    (strip_links acc.1, acc.2 ++ ["strip_links"])
  else if r.rule_type = "strip_mentions" then
    (strip_mentions acc.1, acc.2 ++ ["strip_mentions"])
  else if r.rule_type = "strip_telegram_links" then
    (strip_telegram_links acc.1, acc.2 ++ ["strip_telegram_links"])
  else acc

/-- One step of the replace-rule loop (transform step 4, lines 147-155). -/
def replaceStep (O : RegexOracle) (acc : String × List String)
    (r : TransformRule) : String × List String :=
  if match_pattern O acc.1 r.pattern r.is_regex then
    (apply_replacement O acc.1 r.pattern r.replacement r.is_regex,
     acc.2 ++ ["replace:" ++ r.pattern ++ "->" ++ r.replacement])
  else acc

/-- One step of the prefix-rule loop (transform step 5, lines 157-161): the
rule's `replacement` field holds the text, empty text is skipped. -/
def prefixStep (acc : String × List String) (r : TransformRule) :
    String × List String :=
  if r.replacement ≠ "" then
    (r.replacement ++ acc.1, acc.2 ++ ["prefix:" ++ r.replacement])
  else acc

/-- One step of the suffix-rule loop (transform step 6, lines 163-167). -/
def suffixStep (acc : String × List String) (r : TransformRule) :
    String × List String :=
  if r.replacement ≠ "" then
    (acc.1 ++ r.replacement, acc.2 ++ ["suffix:" ++ r.replacement])
  else acc

/-- The `enabled_rules` list of `transform` (line 103). -/
def enabledRules (rules : List TransformRule) : List TransformRule :=
  rules.filter (fun r => r.enabled)

/-- Rule partition by `rule_type` (lines 106-111): order-preserving filter of
the enabled rules. -/
def rulesOfType (rules : List TransformRule) (t : String) : List TransformRule :=
  (enabledRules rules).filter (fun r => r.rule_type = t)

/-- The `strip_rules` partition (line 108): every enabled rule whose type
starts with `strip_`. -/
def stripRulesOf (rules : List TransformRule) : List TransformRule :=
  (enabledRules rules).filter (fun r => r.rule_type.startsWith "strip_")

/-- First rule of `l` (in order) whose pattern matches `text` — the
`for ... break` / early-`return` loops of the whitelist and blacklist gates. -/
def firstMatch (O : RegexOracle) (text : String) (l : List TransformRule) :
    Option TransformRule :=
  l.find? (fun r => match_pattern O text r.pattern r.is_regex)

/-- The whitelist gate (transform step 1, lines 113-124): `some trace` when the
gate passes (no whitelist rules, or the first matching one recorded in the
trace), `none` when whitelist rules exist and none matches. -/
def wlGateOf (O : RegexOracle) (rules : List TransformRule) (text : String) :
    Option (List String) :=
  if (rulesOfType rules "whitelist").isEmpty then some []
  else
    match firstMatch O text (rulesOfType rules "whitelist") with
    | some r => some ["whitelist:" ++ r.pattern]
    | none => none

/-- Model of `MessageTransformer.transform` (lines 84-173) for the rule list
`rules` (the transformer instance's `self.rules`). -/
def transform (O : RegexOracle) (rules : List TransformRule) (text : String) :
    TransformResult :=
  if text = "" then
    { should_forward := true, original_text := text, transformed_text := text,
      matched_rules := [], blocked_by := none }
  else
    match wlGateOf O rules text with
    | none =>
        { should_forward := false, original_text := text,
          transformed_text := text, matched_rules := [],
          blocked_by := some "No whitelist pattern matched" }
    | some trace0 =>
        match firstMatch O text (rulesOfType rules "blacklist") with
        | some r =>
            { should_forward := false, original_text := text,
              transformed_text := text,
              matched_rules := trace0 ++ ["blacklist:" ++ r.pattern],
              blocked_by := some ("Blacklist matched: " ++ r.pattern) }
        | none =>
            let s1 := (stripRulesOf rules).foldl stripStep (text, trace0)
            let s2 := (rulesOfType rules "replace").foldl (replaceStep O) s1
            let s3 := (rulesOfType rules "prefix").foldl prefixStep s2
            let s4 := (rulesOfType rules "suffix").foldl suffixStep s3
            { should_forward := true, original_text := text,
              transformed_text := cleanWs s4.1, matched_rules := s4.2,
              blocked_by := none }

/-! ## Webhook URL validation (src/core/discord_sender.py, lines 48-70)

`is_discord_webhook_url` reads three results of `urllib.parse.urlparse`:
`scheme`, `hostname` and `path`.  The model below follows CPython's `urlsplit`:
tab/CR/LF characters are removed from the URL first; the scheme is split off at
the first `:` when the text before it is a non-empty run of scheme characters
starting with an ASCII letter (and lowercased); a netloc follows a leading `//`
and extends to the first `/`, `?` or `#`; the path is what remains before the
first `#` or `?`.  The hostname is the part of the netloc after the last `@`
and before the first `:`, lowercased.  A netloc containing `[` or `]` makes
CPython either raise `ValueError` (mismatched brackets, or a bracketed host
that is not an IP literal — the `try/except` in the source then returns
`False`) or produce a bracketed IP-literal hostname, which is never one of the
four allowed Discord hostnames; both give `is_discord_webhook_url = False`, so
the model maps that case to a parse failure.  `urlparse`'s params split (a `;`
in the last path segment) only ever shortens the path after its last `/` and
therefore cannot change whether the path starts with `/api/webhooks/`; it is
omitted. -/

structure PyUrl where
  scheme : String
  netloc : String
  path : String
  deriving DecidableEq, Repr

/-- CPython first strips leading C0-control and space characters from the
URL. -/
def lstripC0Space (l : List Char) : List Char :=
  l.dropWhile (fun c => c.toNat ≤ 32)

/-- CPython then removes `\t`, `\r`, `\n` from the URL before parsing. -/
def removeUnsafe (l : List Char) : List Char :=
  l.filter (fun c => !(c == '\t' || c == '\r' || c == '\n'))

/-- Characters allowed in a scheme: ASCII letters, digits, `+`, `-`, `.`. -/
def isSchemeChar (c : Char) : Bool :=
  c.isAlpha || c.isDigit || c == '+' || c == '-' || c == '.'

/-- Scheme split: at the first `:`, when preceded by a non-empty all-scheme-char
run starting with an ASCII letter; the scheme is lowercased. -/
def splitScheme (l : List Char) : List Char × List Char :=
  match l.findIdx? (fun c => c == ':') with
  | none => ([], l)
  | some i =>
      if decide (0 < i) && (l.take i).all isSchemeChar &&
          (l.head?.map Char.isAlpha).getD false then
        ((l.take i).map Char.toLower, l.drop (i + 1))
      else ([], l)

/-- Netloc split: after a leading `//`, up to the first `/`, `?` or `#`. -/
def splitNetloc (l : List Char) : List Char × List Char :=
  if "//".data.isPrefixOf l then
    ((l.drop 2).takeWhile (fun c => !(c == '/' || c == '?' || c == '#')),
     (l.drop 2).dropWhile (fun c => !(c == '/' || c == '?' || c == '#')))
  else ([], l)

/-- Path: the remainder before the first `#` or `?` (fragment split, then
query split). -/
def pathOf (l : List Char) : List Char :=
  l.takeWhile (fun c => !(c == '#' || c == '?'))

/-- Model of `urllib.parse.urlparse(webhook_url)` restricted to the fields the
source reads; `none` models a raised `ValueError`. -/
def urlparseModel (url : String) : Option PyUrl :=
  let l := removeUnsafe (lstripC0Space url.data)
  let s1 := splitScheme l
  let s2 := splitNetloc s1.2
  if s2.1.any (fun c => c.toNat == 91 || c.toNat == 93) then none
  else some { scheme := ⟨s1.1⟩, netloc := ⟨s2.1⟩, path := ⟨pathOf s2.2⟩ }

/-- `parsed.hostname` combined with the source's `(parsed.hostname or "")
.lower()`: part of the netloc after the last `@`, before the first `:`,
lowercased (empty hostname giving `""`). -/
def hostnameStr (netloc : String) : String :=
  ⟨((netloc.data.reverse.takeWhile (fun c => !(c == '@'))).reverse.takeWhile
      (fun c => !(c == ':'))).map Char.toLower⟩

/-- The allow-list of line 57-62. -/
def allowedHost (h : String) : Bool :=
  h == "discord.com" || h == "discordapp.com" || h == "canary.discord.com" ||
    h == "ptb.discord.com"

/-- Model of `DiscordWebhookSender.is_discord_webhook_url` (lines 48-70). -/
def is_discord_webhook_url (webhook_url : String) : Bool :=
  match urlparseModel webhook_url with
  | none => false
  | some p =>
      if p.scheme != "https" then false
      else if !(allowedHost (hostnameStr p.netloc)) then false
      else "/api/webhooks/".data.isPrefixOf p.path.data

/-- Model of `DiscordWebhookSender.send` (lines 85-103): the allow-list
pre-check runs before the HTTP client is even created; everything after the
pre-check (client creation, text/file payload path, retry loop) is abstracted
as the network function `net`. -/
def send (net : String → DiscordMessage → Bool × Option String)
    (webhook_url : String) (message : DiscordMessage) : Bool × Option String :=
  if !(is_discord_webhook_url webhook_url) then
    (false, some "Invalid Discord webhook URL")
  else net webhook_url message

/-- C6: a webhook URL failing the allow-list validation — the parse raising, or
the scheme not being `https` (in particular any `http://` URL), or the host not
being an allowed Discord host, or the path not starting with `/api/webhooks/` —
makes `send` return the permanent failure `(False, "Invalid Discord webhook
URL")` whatever the network behaviour is: the result is independent of the
network function, so no network call, no retry and no redirect happens. -/
theorem invalid_webhook_rejected_before_network :
    (∀ url : String, is_discord_webhook_url url = false →
      ∀ (net : String → DiscordMessage → Bool × Option String)
        (msg : DiscordMessage),
        send net url msg = (false, some "Invalid Discord webhook URL")) ∧
    (∀ url : String, urlparseModel url = none →
      is_discord_webhook_url url = false) ∧
    (∀ (url : String) (p : PyUrl), urlparseModel url = some p →
      (¬ p.scheme = "https" ∨ allowedHost (hostnameStr p.netloc) = false ∨
        "/api/webhooks/".data.isPrefixOf p.path.data = false) →
      is_discord_webhook_url url = false) := by
  refine ⟨fun url h net msg => ?_, fun url h => ?_, fun url p hp hcase => ?_⟩
  · simp [send, h]
  · simp [is_discord_webhook_url, h]
  · unfold is_discord_webhook_url
    rw [hp]
    rcases hcase with h1 | h1 | h1
    · simp [bne_iff_ne, h1]
    · by_cases h2 : p.scheme = "https"
      · simp [h2, h1]
      · simp [bne_iff_ne, h2]
    · by_cases h2 : p.scheme = "https"
      · by_cases h3 : allowedHost (hostnameStr p.netloc) = true
        · simp [h2, h3, h1]
        · simp [h2, Bool.eq_false_iff.mpr h3]
      · simp [bne_iff_ne, h2]

/-- Witness for C6: the `http://` (non-https) URL of the spec scenario is
rejected with no network involvement (the network function here would report
success if it were ever consulted). -/
theorem invalid_webhook_rejected_before_network_witness :
    is_discord_webhook_url "http://discord.com/api/webhooks/123/token" = false ∧
    send (fun _ _ => (true, none)) "http://discord.com/api/webhooks/123/token"
      { content := "hi" } = (false, some "Invalid Discord webhook URL") := by
  have h : is_discord_webhook_url "http://discord.com/api/webhooks/123/token"
      = false := by decide
  exact ⟨h, invalid_webhook_rejected_before_network.1 _ h _ _⟩

/-! ## Transformer: path characterizations -/

theorem mem_rulesOfType {r : TransformRule} {rules : List TransformRule}
    {t : String} :
    r ∈ rulesOfType rules t ↔ r ∈ rules ∧ r.enabled = true ∧ r.rule_type = t := by
  simp only [rulesOfType, enabledRules, List.mem_filter, decide_eq_true_eq]
  tauto

theorem transform_of_wlGate_none (O : RegexOracle) (rules : List TransformRule)
    (text : String) (ht : ¬ text = "")
    (hg : wlGateOf O rules text = none) :
    transform O rules text =
      { should_forward := false, original_text := text, transformed_text := text,
        matched_rules := [], blocked_by := some "No whitelist pattern matched" } := by
  unfold transform
  rw [if_neg ht, hg]

theorem transform_of_blacklist_match (O : RegexOracle)
    (rules : List TransformRule) (text : String) (ht : ¬ text = "")
    (trace0 : List String) (hg : wlGateOf O rules text = some trace0)
    (b : TransformRule)
    (hb : firstMatch O text (rulesOfType rules "blacklist") = some b) :
    transform O rules text =
      { should_forward := false, original_text := text, transformed_text := text,
        matched_rules := trace0 ++ ["blacklist:" ++ b.pattern],
        blocked_by := some ("Blacklist matched: " ++ b.pattern) } := by
  unfold transform
  rw [if_neg ht, hg, hb]

theorem transform_of_gates_pass (O : RegexOracle) (rules : List TransformRule)
    (text : String) (ht : ¬ text = "")
    (trace0 : List String) (hg : wlGateOf O rules text = some trace0)
    (hb : firstMatch O text (rulesOfType rules "blacklist") = none) :
    transform O rules text =
      { should_forward := true, original_text := text,
        transformed_text := cleanWs ((rulesOfType rules "suffix").foldl suffixStep
          ((rulesOfType rules "prefix").foldl prefixStep
            ((rulesOfType rules "replace").foldl (replaceStep O)
              ((stripRulesOf rules).foldl stripStep (text, trace0))))).1,
        matched_rules := ((rulesOfType rules "suffix").foldl suffixStep
          ((rulesOfType rules "prefix").foldl prefixStep
            ((rulesOfType rules "replace").foldl (replaceStep O)
              ((stripRulesOf rules).foldl stripStep (text, trace0))))).2,
        blocked_by := none } := by
  unfold transform
  rw [if_neg ht, hg, hb]

theorem wlGateOf_none_of_no_match (O : RegexOracle) (rules : List TransformRule)
    (text : String)
    (hne : (rulesOfType rules "whitelist").isEmpty = false)
    (hfind : firstMatch O text (rulesOfType rules "whitelist") = none) :
    wlGateOf O rules text = none := by
  unfold wlGateOf
  rw [hne, hfind]
  simp

theorem wlGateOf_some_of_match (O : RegexOracle) (rules : List TransformRule)
    (text : String) (w : TransformRule)
    (hfind : firstMatch O text (rulesOfType rules "whitelist") = some w) :
    wlGateOf O rules text = some ["whitelist:" ++ w.pattern] := by
  unfold wlGateOf
  have hne : (rulesOfType rules "whitelist").isEmpty = false := by
    cases h : rulesOfType rules "whitelist" with
    | nil => rw [h] at hfind; cases hfind
    | cons a l => simp
  rw [hne, hfind]
  simp

/-! ## Theorems for claims C2, C3, C4, C10 -/

/-- C2: for every non-empty text, if at least one enabled whitelist rule exists
and no enabled whitelist rule matches, `transform` blocks with
`blocked_by = "No whitelist pattern matched"`, an empty trace, and the text
untouched (no blacklist / strip / replace / prefix / suffix rule runs). -/
theorem whitelist_no_match_blocks (O : RegexOracle) (rules : List TransformRule)
    (text : String) (ht : text ≠ "")
    (hex : ∃ r ∈ rules, r.enabled = true ∧ r.rule_type = "whitelist")
    (hnm : ∀ r ∈ rules, r.enabled = true → r.rule_type = "whitelist" →
      match_pattern O text r.pattern r.is_regex = false) :
    (transform O rules text).should_forward = false ∧
    (transform O rules text).blocked_by = some "No whitelist pattern matched" ∧
    (transform O rules text).matched_rules = [] ∧
    (transform O rules text).transformed_text = text := by
  obtain ⟨r0, hr0, hen, hty⟩ := hex
  have hmem : r0 ∈ rulesOfType rules "whitelist" :=
    mem_rulesOfType.mpr ⟨hr0, hen, hty⟩
  have hne : (rulesOfType rules "whitelist").isEmpty = false := by
    cases h : rulesOfType rules "whitelist" with
    | nil => rw [h] at hmem; cases hmem
    | cons a l => simp
  have hfind : firstMatch O text (rulesOfType rules "whitelist") = none := by
    apply List.find?_eq_none.mpr
    intro r hr
    obtain ⟨hr1, hr2, hr3⟩ := mem_rulesOfType.mp hr
    simp [hnm r hr1 hr2 hr3]
  rw [transform_of_wlGate_none O rules text ht
    (wlGateOf_none_of_no_match O rules text hne hfind)]
  exact ⟨rfl, rfl, rfl, rfl⟩

/-- Witness for C2: one non-matching whitelist rule blocks the message. -/
theorem whitelist_no_match_blocks_witness :
    (transform noRegex [{ rule_type := "whitelist", pattern := "news" }]
      "random chat").should_forward = false ∧
    (transform noRegex [{ rule_type := "whitelist", pattern := "news" }]
      "random chat").blocked_by = some "No whitelist pattern matched" ∧
    (transform noRegex [{ rule_type := "whitelist", pattern := "news" }]
      "random chat").matched_rules = [] ∧
    (transform noRegex [{ rule_type := "whitelist", pattern := "news" }]
      "random chat").transformed_text = "random chat" := by
  exact whitelist_no_match_blocks noRegex _ "random chat" (by decide)
    ⟨{ rule_type := "whitelist", pattern := "news" }, by simp, rfl, rfl⟩
    (by
      intro r hr _ _
      simp at hr
      subst hr
      simp [match_pattern, pyLower]
      decide)

/-- C3: for every non-empty text that matches an enabled whitelist rule and
matches some enabled blacklist rule, `transform` blocks with
`blocked_by = "Blacklist matched: <pattern>"` where `<pattern>` is the pattern
of the first (in rule order, `firstMatch` being `List.find?`) matching
blacklist rule; no strip / replace / prefix / suffix rule runs (the text is
untouched and the trace holds only the two gate entries). -/
theorem blacklist_blocks_despite_whitelist (O : RegexOracle)
    (rules : List TransformRule) (text : String) (ht : text ≠ "")
    (hw : ∃ r ∈ rules, r.enabled = true ∧ r.rule_type = "whitelist" ∧
      match_pattern O text r.pattern r.is_regex = true)
    (hb : ∃ r ∈ rules, r.enabled = true ∧ r.rule_type = "blacklist" ∧
      match_pattern O text r.pattern r.is_regex = true) :
    ∃ w b : TransformRule,
      firstMatch O text (rulesOfType rules "whitelist") = some w ∧
      firstMatch O text (rulesOfType rules "blacklist") = some b ∧
      transform O rules text =
        { should_forward := false, original_text := text,
          transformed_text := text,
          matched_rules := ["whitelist:" ++ w.pattern, "blacklist:" ++ b.pattern],
          blocked_by := some ("Blacklist matched: " ++ b.pattern) } := by
  obtain ⟨rw0, hrw, hwen, hwty, hwm⟩ := hw
  obtain ⟨rb0, hrb, hben, hbty, hbm⟩ := hb
  have hws : (firstMatch O text (rulesOfType rules "whitelist")).isSome := by
    rw [firstMatch, List.find?_isSome]
    exact ⟨rw0, mem_rulesOfType.mpr ⟨hrw, hwen, hwty⟩, by simp [hwm]⟩
  have hbs : (firstMatch O text (rulesOfType rules "blacklist")).isSome := by
    rw [firstMatch, List.find?_isSome]
    exact ⟨rb0, mem_rulesOfType.mpr ⟨hrb, hben, hbty⟩, by simp [hbm]⟩
  obtain ⟨w, hwfind⟩ := Option.isSome_iff_exists.mp hws
  obtain ⟨b, hbfind⟩ := Option.isSome_iff_exists.mp hbs
  refine ⟨w, b, hwfind, hbfind, ?_⟩
  rw [transform_of_blacklist_match O rules text ht _
    (wlGateOf_some_of_match O rules text w hwfind) b hbfind]
  rfl

/-- Witness for C3: whitelist "is" matches, blacklist "spam" still blocks. -/
theorem blacklist_blocks_despite_whitelist_witness :
    ∃ w b : TransformRule,
      firstMatch noRegex "this is spam"
        (rulesOfType [{ rule_type := "whitelist", pattern := "is" },
          { rule_type := "blacklist", pattern := "spam" }] "whitelist") = some w ∧
      firstMatch noRegex "this is spam"
        (rulesOfType [{ rule_type := "whitelist", pattern := "is" },
          { rule_type := "blacklist", pattern := "spam" }] "blacklist") = some b ∧
      transform noRegex [{ rule_type := "whitelist", pattern := "is" },
          { rule_type := "blacklist", pattern := "spam" }] "this is spam" =
        { should_forward := false, original_text := "this is spam",
          transformed_text := "this is spam",
          matched_rules := ["whitelist:" ++ w.pattern, "blacklist:" ++ b.pattern],
          blocked_by := some ("Blacklist matched: " ++ b.pattern) } := by
  apply blacklist_blocks_despite_whitelist noRegex _ _ (by decide)
  · refine ⟨{ rule_type := "whitelist", pattern := "is" }, by simp, rfl, rfl, ?_⟩
    simp [match_pattern, pyLower]
    decide
  · refine ⟨{ rule_type := "blacklist", pattern := "spam" }, by simp, rfl, rfl, ?_⟩
    simp [match_pattern, pyLower]
    decide

/-- Counterexample for C4: with an empty rule set the input `"a  b"` (two
spaces) is forwarded as `"a b"` — the final whitespace-collapse step of
`transform` runs even when no rule exists, so the text is NOT returned
byte-for-byte unchanged. -/
theorem transform_empty_rules_not_identity_counterexample :
    (transform noRegex [] "a  b").should_forward = true ∧
    (transform noRegex [] "a  b").transformed_text = "a b" ∧
    (transform noRegex [] "a  b").transformed_text ≠ "a  b" := by
  refine ⟨?_, ?_, ?_⟩ <;>
    simp +decide [transform, wlGateOf, rulesOfType, enabledRules, stripRulesOf,
      firstMatch, cleanWs, collapseRuns, pyStrip, dropStartWs, dropEndWs,
      List.rdropWhile]

/-- C4 (amended): with an empty rule set `transform` always forwards
(`should_forward = true`), and the transformed text is the input with runs of
consecutive whitespace collapsed to single spaces and leading/trailing
whitespace stripped (`cleanWs`, the unconditional final cleanup of
`transform`); in particular the input is returned unchanged exactly when that
cleanup does not alter it, not byte-for-byte in general. -/
theorem transform_empty_rules (O : RegexOracle) (text : String) :
    (transform O [] text).should_forward = true ∧
    (transform O [] text).blocked_by = none ∧
    (transform O [] text).matched_rules = [] ∧
    (transform O [] text).transformed_text = cleanWs text := by
  by_cases ht : text = ""
  · subst ht
    refine ⟨rfl, rfl, rfl, ?_⟩
    show ("" : String) = cleanWs ""
    simp [cleanWs, collapseRuns, pyStrip, dropStartWs, dropEndWs, List.rdropWhile]
  · have hg : wlGateOf O [] text = some [] := by
      unfold wlGateOf
      simp [rulesOfType, enabledRules]
    have hb : firstMatch O text (rulesOfType [] "blacklist") = none := by
      simp [firstMatch, rulesOfType, enabledRules]
    rw [transform_of_gates_pass O [] text ht [] hg hb]
    refine ⟨rfl, rfl, ?_, ?_⟩ <;>
      simp [rulesOfType, enabledRules, stripRulesOf]

/-- C10: the empty pattern never matches (`_match_pattern` returns `False`
before looking at the text or the regex flag); consequently a rule set whose
enabled whitelist rules all have empty patterns (and has at least one) blocks
every non-empty message with the whitelist reason, while enabled blacklist
rules with empty patterns never block anything — the result is either
forwarded or blocked by the whitelist gate, never by a blacklist match. -/
theorem empty_pattern_never_matches :
    (∀ (O : RegexOracle) (text : String) (b : Bool),
      match_pattern O text "" b = false) ∧
    (∀ (O : RegexOracle) (rules : List TransformRule) (text : String),
      text ≠ "" →
      (∃ r ∈ rules, r.enabled = true ∧ r.rule_type = "whitelist") →
      (∀ r ∈ rules, r.enabled = true → r.rule_type = "whitelist" →
        r.pattern = "") →
      (transform O rules text).should_forward = false ∧
      (transform O rules text).blocked_by =
        some "No whitelist pattern matched") ∧
    (∀ (O : RegexOracle) (rules : List TransformRule) (text : String),
      (∀ r ∈ rules, r.enabled = true → r.rule_type = "blacklist" →
        r.pattern = "") →
      (transform O rules text).should_forward = true ∨
      (transform O rules text).blocked_by =
        some "No whitelist pattern matched") := by
  have hmp : ∀ (O : RegexOracle) (text : String) (b : Bool),
      match_pattern O text "" b = false := by
    intro O text b
    simp [match_pattern]
  refine ⟨hmp, ?_, ?_⟩
  · intro O rules text ht hex hpat
    obtain ⟨r0, hr0, hen, hty⟩ := hex
    have hmem : r0 ∈ rulesOfType rules "whitelist" :=
      mem_rulesOfType.mpr ⟨hr0, hen, hty⟩
    have hne : (rulesOfType rules "whitelist").isEmpty = false := by
      cases h : rulesOfType rules "whitelist" with
      | nil => rw [h] at hmem; cases hmem
      | cons a l => simp
    have hfind : firstMatch O text (rulesOfType rules "whitelist") = none := by
      apply List.find?_eq_none.mpr
      intro r hr
      obtain ⟨hr1, hr2, hr3⟩ := mem_rulesOfType.mp hr
      rw [hpat r hr1 hr2 hr3]
      simp [hmp O text r.is_regex]
    rw [transform_of_wlGate_none O rules text ht
      (wlGateOf_none_of_no_match O rules text hne hfind)]
    exact ⟨rfl, rfl⟩
  · intro O rules text hpat
    by_cases ht : text = ""
    · subst ht
      left
      rfl
    · have hbl : firstMatch O text (rulesOfType rules "blacklist") = none := by
        apply List.find?_eq_none.mpr
        intro r hr
        obtain ⟨hr1, hr2, hr3⟩ := mem_rulesOfType.mp hr
        rw [hpat r hr1 hr2 hr3]
        simp [hmp O text r.is_regex]
      cases hg : wlGateOf O rules text with
      | none =>
          right
          rw [transform_of_wlGate_none O rules text ht hg]
      | some trace0 =>
          left
          rw [transform_of_gates_pass O rules text ht trace0 hg hbl]

/-- Witness for C10: instantiating the quantified parts at concrete inputs —
an empty-pattern whitelist rule blocks `"hello"`; with only an empty-pattern
blacklist rule, `"hello"` is forwarded (or whitelist-blocked, and here it is
forwarded). -/
theorem empty_pattern_never_matches_witness :
    match_pattern noRegex "hello" "" true = false ∧
    (transform noRegex [{ rule_type := "whitelist", pattern := "" }]
      "hello").should_forward = false ∧
    ((transform noRegex [{ rule_type := "blacklist", pattern := "" }]
      "hello").should_forward = true ∨
     (transform noRegex [{ rule_type := "blacklist", pattern := "" }]
      "hello").blocked_by = some "No whitelist pattern matched") := by
  refine ⟨empty_pattern_never_matches.1 noRegex "hello" true, ?_, ?_⟩
  · exact (empty_pattern_never_matches.2.1 noRegex
      [{ rule_type := "whitelist", pattern := "" }] "hello" (by decide)
      ⟨{ rule_type := "whitelist", pattern := "" }, by simp, rfl, rfl⟩
      (by intro r hr _ _; simp at hr; subst hr; rfl)).1
  · exact empty_pattern_never_matches.2.2 noRegex
      [{ rule_type := "blacklist", pattern := "" }] "hello"
      (by intro r hr _ _; simp at hr; subst hr; rfl)

/-! ## Strip-links idempotence (claim C5)

The development below analyses `scanSub urlMatchLen`, the embedded
`re.sub(url_pattern, "", text)`: its output contains no URL match anywhere
(`NoUrl`), stripping surrounding whitespace preserves that, and `scanSub`
is the identity on match-free text — which together give idempotence of
`_strip_links`. -/

theorem scanSub_nil (m : List Char → Nat) : scanSub m [] = [] := by
  rw [scanSub]

theorem scanSub_cons_zero (m : List Char → Nat) (c : Char) (cs : List Char)
    (h : m (c :: cs) = 0) : scanSub m (c :: cs) = c :: scanSub m cs := by
  rw [scanSub]
  simp [h]

theorem scanSub_cons_pos (m : List Char → Nat) (c : Char) (cs : List Char)
    (h : m (c :: cs) ≠ 0) :
    scanSub m (c :: cs) = scanSub m (List.drop (m (c :: cs)) (c :: cs)) := by
  rw [scanSub]
  simp [h, Nat.max_eq_left (Nat.one_le_iff_ne_zero.mpr h)]

theorem drop_takeWhile_length {α : Type} (q : α → Bool) (x : List α) :
    x.drop (x.takeWhile q).length = x.dropWhile q := by
  induction x with
  | nil => rfl
  | cons a as ih =>
      by_cases hq : q a <;>
        simp [List.takeWhile_cons, List.dropWhile_cons, hq, ih]

theorem dropWhile_head_not_or_nil {α : Type} (q : α → Bool) (x : List α) :
    x.dropWhile q = [] ∨
    ∃ d ds, x.dropWhile q = d :: ds ∧ q d = false := by
  induction x with
  | nil => exact Or.inl rfl
  | cons a as ih =>
      by_cases hq : q a
      · rw [List.dropWhile_cons_of_pos hq]
        exact ih
      · rw [List.dropWhile_cons_of_neg (by simpa using hq)]
        exact Or.inr ⟨a, as, rfl, by simpa using hq⟩

theorem urlMatchLen_decomp (l : List Char) (h : urlMatchLen l ≠ 0) :
    urlMatchLen l =
      httpLitLen l + ((l.drop (httpLitLen l)).takeWhile isUrlChar).length := by
  unfold urlMatchLen at h ⊢
  by_cases hp : httpLitLen l = 0
  · simp [hp] at h
  · simp only [hp, if_false]
    by_cases hr : ((l.drop (httpLitLen l)).takeWhile isUrlChar).length = 0
    · simp [hp, hr] at h
    · simp [hr]

/-- After a removed match the remaining text is empty or starts with a
non-URL character (the greedy run was maximal). -/
theorem drop_match_head (l : List Char) (h : urlMatchLen l ≠ 0) :
    List.drop (urlMatchLen l) l = [] ∨
    ∃ d ds, List.drop (urlMatchLen l) l = d :: ds ∧ isUrlChar d = false := by
  rw [urlMatchLen_decomp l h, ← List.drop_drop, drop_takeWhile_length]
  exact dropWhile_head_not_or_nil _ _

/-- A URL match begins with one of the two literals followed by a URL
character. -/
theorem urlMatchLen_pos_elim (l : List Char) (h : urlMatchLen l ≠ 0) :
    ∃ (P : List Char) (u : Char) (rest : List Char),
      (P = "https://".data ∨ P = "http://".data) ∧ isUrlChar u = true ∧
      l = P ++ u :: rest := by
  unfold urlMatchLen at h
  by_cases hp : httpLitLen l = 0
  · simp [hp] at h
  · have hrun : ((l.drop (httpLitLen l)).takeWhile isUrlChar).length ≠ 0 := by
      intro hr
      simp [hp, hr] at h
    cases h8 : "https://".data.isPrefixOf l with
    | true =>
        obtain ⟨t, ht⟩ := List.isPrefixOf_iff_prefix.mp h8
        have hdrop : l.drop (httpLitLen l) = t := by
          unfold httpLitLen
          rw [h8, if_pos rfl, ← ht,
            show (8 : Nat) = ("https://".data).length from rfl, List.drop_left]
        rw [hdrop] at hrun
        cases t with
        | nil => simp at hrun
        | cons u rest =>
            by_cases hu : isUrlChar u
            · exact ⟨"https://".data, u, rest, Or.inl rfl, hu, ht.symm⟩
            · rw [List.takeWhile_cons_of_neg (by simpa using hu)] at hrun
              simp at hrun
    | false =>
        cases h7 : "http://".data.isPrefixOf l with
        | true =>
            obtain ⟨t, ht⟩ := List.isPrefixOf_iff_prefix.mp h7
            have hdrop : l.drop (httpLitLen l) = t := by
              unfold httpLitLen
              rw [h8, h7]
              simp only [Bool.false_eq_true, if_false, if_true]
              rw [← ht, show (7 : Nat) = ("http://".data).length from rfl,
                List.drop_left]
            rw [hdrop] at hrun
            cases t with
            | nil => simp at hrun
            | cons u rest =>
                by_cases hu : isUrlChar u
                · exact ⟨"http://".data, u, rest, Or.inr rfl, hu, ht.symm⟩
                · rw [List.takeWhile_cons_of_neg (by simpa using hu)] at hrun
                  simp at hrun
        | false =>
            exfalso
            apply hp
            unfold httpLitLen
            rw [h8, h7]
            simp

/-- Conversely, a literal followed by a URL character is a match. -/
theorem urlMatchLen_pos_of_parts (l rest : List Char) (P : List Char)
    (hP : P = "https://".data ∨ P = "http://".data)
    (u : Char) (hu : isUrlChar u = true)
    (hl : l = P ++ u :: rest) : urlMatchLen l ≠ 0 := by
  have hlit : httpLitLen l = P.length := by
    rcases hP with hP | hP <;> subst hP <;> subst hl
    · unfold httpLitLen
      rw [List.isPrefixOf_iff_prefix.mpr (List.prefix_append _ _), if_pos rfl]
      decide
    · unfold httpLitLen
      have h8 : ("https://".data.isPrefixOf
          ("http://".data ++ u :: rest)) = false := by
        apply Bool.eq_false_iff.mpr
        intro hcon
        have h8' : "https://".data <+: ("http://".data ++ u :: rest) :=
          List.isPrefixOf_iff_prefix.mp hcon
        have h7' : "http://".data <+: ("http://".data ++ u :: rest) :=
          List.prefix_append _ _
        rcases List.prefix_or_prefix_of_prefix h8' h7' with hc | hc
        · exact absurd hc (by decide)
        · exact absurd hc (by decide)
      rw [h8]
      simp only [Bool.false_eq_true, if_false]
      rw [List.isPrefixOf_iff_prefix.mpr (List.prefix_append _ _), if_pos rfl]
      decide
  have hdrop2 : List.drop P.length l = u :: rest := by
    rw [hl, List.drop_left]
  have hPlen : P.length ≠ 0 := by
    rcases hP with hP | hP <;> subst hP <;> decide
  simp only [urlMatchLen]
  rw [hlit, hdrop2, List.takeWhile_cons_of_pos hu]
  simp [hPlen] <;> omega

/-- A match never begins at a non-URL character. -/
theorem urlMatchLen_eq_zero_of_head_not_url (c : Char) (cs : List Char)
    (hc : isUrlChar c = false) : urlMatchLen (c :: cs) = 0 := by
  by_contra h
  obtain ⟨P, u, rest, hP, hu, heq⟩ := urlMatchLen_pos_elim _ h
  have hch : c = 'h' := by
    rcases hP with hP | hP <;> subst hP
    · rw [show ("https://".data : List Char) = 'h' :: "ttps://".data from rfl,
        List.cons_append] at heq
      injection heq with h1 _
    · rw [show ("http://".data : List Char) = 'h' :: "ttp://".data from rfl,
        List.cons_append] at heq
      injection heq with h1 _
  rw [hch] at hc
  exact absurd hc (by decide)

/-- No suffix of `l` begins a URL match (so `re.sub` leaves `l` unchanged). -/
def NoUrl (l : List Char) : Prop :=
  ∀ l1 l2 : List Char, l = l1 ++ l2 → urlMatchLen l2 = 0

theorem urlMatchLen_append_pos (l r : List Char) (h : urlMatchLen l ≠ 0) :
    urlMatchLen (l ++ r) ≠ 0 := by
  obtain ⟨P, u, rest, hP, hu, heq⟩ := urlMatchLen_pos_elim l h
  apply urlMatchLen_pos_of_parts (l ++ r) (rest ++ r) P hP u hu
  rw [heq]
  simp

/-- A prefix of `scanSub urlMatchLen l` made of URL characters only is already
a prefix of `l` (match removal never assembles such a prefix from pieces:
every seam starts at a non-URL character). -/
theorem scanSub_prefix_transfer :
    ∀ (n : ℕ) (l p : List Char), l.length ≤ n → p.all isUrlChar = true →
      p <+: scanSub urlMatchLen l → p <+: l := by
  intro n
  induction n with
  | zero =>
      intro l p hl hall hpre
      have hnil : l = [] := List.length_eq_zero.mp (Nat.le_zero.mp hl)
      subst hnil
      rwa [scanSub_nil] at hpre
  | succ n ih =>
      intro l p hl hall hpre
      cases l with
      | nil => rwa [scanSub_nil] at hpre
      | cons c cs =>
          by_cases hm : urlMatchLen (c :: cs) = 0
          · rw [scanSub_cons_zero _ _ _ hm] at hpre
            cases p with
            | nil => exact List.nil_prefix
            | cons q ps =>
                rw [List.cons_prefix_cons] at hpre ⊢
                obtain ⟨hq, hps⟩ := hpre
                have hall' : ps.all isUrlChar = true := by
                  rw [List.all_cons] at hall
                  exact (Bool.and_eq_true_iff.mp hall).2
                have hcs : cs.length ≤ n := by
                  rw [List.length_cons] at hl
                  omega
                exact ⟨hq, ih cs ps hcs hall' hps⟩
          · rw [scanSub_cons_pos _ _ _ hm] at hpre
            cases p with
            | nil => exact List.nil_prefix
            | cons q ps =>
                exfalso
                have hqurl : isUrlChar q = true := by
                  rw [List.all_cons] at hall
                  exact (Bool.and_eq_true_iff.mp hall).1
                rcases drop_match_head (c :: cs) hm with hdrop | ⟨d, ds, hdrop, hd⟩
                · rw [hdrop, scanSub_nil] at hpre
                  have := List.prefix_nil.mp hpre
                  cases this
                · rw [hdrop, scanSub_cons_zero _ _ _
                    (urlMatchLen_eq_zero_of_head_not_url d ds hd)] at hpre
                  rw [List.cons_prefix_cons] at hpre
                  rw [hpre.1] at hqurl
                  rw [hqurl] at hd
                  cases hd

theorem urlMatchLen_nil : urlMatchLen [] = 0 := by decide

theorem noUrl_nil : NoUrl [] := by
  intro l1 l2 heq
  have h2 : l2 = [] := (List.append_eq_nil.mp heq.symm).2
  rw [h2]
  exact urlMatchLen_nil

/-- The output of the URL `re.sub` contains no URL match anywhere. -/
theorem noUrl_scanSub :
    ∀ (n : ℕ) (l : List Char), l.length ≤ n → NoUrl (scanSub urlMatchLen l) := by
  intro n
  induction n with
  | zero =>
      intro l hl
      have hnil : l = [] := List.length_eq_zero.mp (Nat.le_zero.mp hl)
      subst hnil
      rw [scanSub_nil]
      exact noUrl_nil
  | succ n ih =>
      intro l hl
      cases l with
      | nil =>
          rw [scanSub_nil]
          exact noUrl_nil
      | cons c cs =>
          have hcs : cs.length ≤ n := by
            rw [List.length_cons] at hl
            omega
          by_cases hm : urlMatchLen (c :: cs) = 0
          · rw [scanSub_cons_zero _ _ _ hm]
            intro l1 l2 heq
            cases l1 with
            | cons a l1' =>
                injection heq with h1 h2
                exact ih cs hcs l1' l2 h2
            | nil =>
                rw [List.nil_append] at heq
                by_contra hne
                rw [← heq] at hne
                obtain ⟨P, u, rest, hP, hu, hdec⟩ := urlMatchLen_pos_elim _ hne
                rcases hP with hP | hP <;> subst hP
                · rw [show ("https://".data : List Char) =
                    'h' :: "ttps://".data from rfl, List.cons_append] at hdec
                  injection hdec with hc1 hc2
                  have hpre : ("ttps://".data ++ [u]) <+:
                      scanSub urlMatchLen cs := by
                    rw [hc2]
                    exact ⟨rest, by simp⟩
                  have hall : ("ttps://".data ++ [u]).all isUrlChar = true := by
                    rw [List.all_append]
                    simp [hu]
                    decide
                  obtain ⟨t, ht⟩ :=
                    scanSub_prefix_transfer cs.length cs _ le_rfl hall hpre
                  refine absurd hm ?_
                  apply urlMatchLen_pos_of_parts (c :: cs) t "https://".data
                    (Or.inl rfl) u hu
                  rw [show ("https://".data : List Char) =
                    'h' :: "ttps://".data from rfl, List.cons_append, hc1]
                  rw [← ht]
                  simp
                · rw [show ("http://".data : List Char) =
                    'h' :: "ttp://".data from rfl, List.cons_append] at hdec
                  injection hdec with hc1 hc2
                  have hpre : ("ttp://".data ++ [u]) <+:
                      scanSub urlMatchLen cs := by
                    rw [hc2]
                    exact ⟨rest, by simp⟩
                  have hall : ("ttp://".data ++ [u]).all isUrlChar = true := by
                    rw [List.all_append]
                    simp [hu]
                    decide
                  obtain ⟨t, ht⟩ :=
                    scanSub_prefix_transfer cs.length cs _ le_rfl hall hpre
                  refine absurd hm ?_
                  apply urlMatchLen_pos_of_parts (c :: cs) t "http://".data
                    (Or.inr rfl) u hu
                  rw [show ("http://".data : List Char) =
                    'h' :: "ttp://".data from rfl, List.cons_append, hc1]
                  rw [← ht]
                  simp
          · rw [scanSub_cons_pos _ _ _ hm]
            apply ih
            have hk : 1 ≤ urlMatchLen (c :: cs) := Nat.one_le_iff_ne_zero.mpr hm
            rw [List.length_drop, List.length_cons]
            omega

/-- `re.sub` is the identity on match-free text. -/
theorem scanSub_eq_self_of_noUrl (l : List Char) (h : NoUrl l) :
    scanSub urlMatchLen l = l := by
  induction l with
  | nil => exact scanSub_nil _
  | cons c cs ih =>
      have hm : urlMatchLen (c :: cs) = 0 := h [] (c :: cs) rfl
      rw [scanSub_cons_zero _ _ _ hm,
        ih (fun l1 l2 heq => h (c :: l1) l2 (by rw [heq, List.cons_append]))]

theorem noUrl_of_suffix {l s : List Char} (hs : s <:+ l) (h : NoUrl l) :
    NoUrl s := by
  intro a b heq
  obtain ⟨t, ht⟩ := hs
  exact h (t ++ a) b (by rw [← ht, heq, List.append_assoc])

theorem noUrl_of_prefix {l s : List Char} (hs : s <+: l) (h : NoUrl l) :
    NoUrl s := by
  intro a b heq
  obtain ⟨t, ht⟩ := hs
  by_contra hne
  exact urlMatchLen_append_pos b t hne
    (h a (b ++ t) (by rw [← ht, heq, List.append_assoc]))

/-- Stripping surrounding whitespace cannot create a URL match. -/
theorem pyStrip_noUrl {l : List Char} (h : NoUrl l) : NoUrl (pyStrip l) := by
  unfold pyStrip dropEndWs dropStartWs
  exact noUrl_of_prefix (List.rdropWhile_prefix _ _)
    (noUrl_of_suffix (List.dropWhile_suffix _) h)

theorem dropWhile_rdropWhile_dropWhile {α : Type} (q : α → Bool) (l : List α) :
    List.dropWhile q (List.rdropWhile q (List.dropWhile q l)) =
      List.rdropWhile q (List.dropWhile q l) := by
  have hx : List.rdropWhile q (List.dropWhile q l) <+: List.dropWhile q l :=
    List.rdropWhile_prefix _ _
  cases hxe : List.rdropWhile q (List.dropWhile q l) with
  | nil => simp
  | cons d ds =>
      rw [hxe] at hx
      obtain ⟨t, ht⟩ := hx
      have hy_ne : List.dropWhile q l ≠ [] := by
        rw [← ht]
        simp
      have hd : q d = false := by
        have h2 := List.head_dropWhile_not q l hy_ne
        have h3 : (List.dropWhile q l).head hy_ne = d := by
          have h4 : List.dropWhile q l = d :: (ds ++ t) := by
            rw [← ht, List.cons_append]
          simp [h4]
        rwa [h3] at h2
      rw [List.dropWhile_cons_of_neg (by simp [hd])]

/-- Python `str.strip()` is idempotent. -/
theorem pyStrip_idem (l : List Char) : pyStrip (pyStrip l) = pyStrip l := by
  unfold pyStrip dropEndWs dropStartWs
  rw [dropWhile_rdropWhile_dropWhile, List.rdropWhile_idempotent]

/-- C5: `_strip_links` is idempotent — applying the URL-stripping function
twice gives the same result as applying it once, for every text. -/
theorem strip_links_idempotent (t : String) :
    strip_links (strip_links t) = strip_links t := by
  unfold strip_links
  refine congrArg String.mk ?_
  show pyStrip (scanSub urlMatchLen (pyStrip (scanSub urlMatchLen t.data))) =
    pyStrip (scanSub urlMatchLen t.data)
  have h1 : NoUrl (scanSub urlMatchLen t.data) :=
    noUrl_scanSub t.data.length t.data le_rfl
  have h2 : NoUrl (pyStrip (scanSub urlMatchLen t.data)) := pyStrip_noUrl h1
  rw [scanSub_eq_self_of_noUrl _ h2, pyStrip_idem]

end Teleforward
